import Mathlib

set_option autoImplicit false

namespace Pyderive

/-!
Shallow embedding of the pyderive field-resolution and code-synthesis
pipeline (src/pyderive/abc.py, parse.py, compile.py, dataclass.py) and of
the serde / validation extensions (extensions/serde/serde.py,
extensions/validate/validators.py), together with proofs settling the
frozen claims about the natural-language specification.

Python values relevant to the claims are modelled as a closed inductive
type `PyVal`; the `MISSING` sentinel class from `abc.py` is a dedicated
constructor, mirroring its use as an absent-default marker.  Default
factories are zero-argument pure callables in the source; they are
modelled by the value they produce, with `.missing` standing for an
unset `default_factory` exactly as `MISSING` does in the source.
-/

/-- Model of the Python runtime values the claims touch (ints, strings,
floats, None) plus the `MISSING` sentinel from `pyderive.abc`. -/
inductive PyVal where
  | none
  | missing
  | int (n : ℤ)
  | str (s : String)
  | float (q : ℚ)
  deriving DecidableEq, Repr

/-- Model of the annotation (declared type) of a field, restricted to the
atomic types exercised by the claims. `anyT` stands for `typing.Any`. -/
inductive PyAnno where
  | intT
  | strT
  | floatT
  | noneT
  | anyT
  deriving DecidableEq, Repr

/-- Python `isinstance` on the modelled values and atomic annotations. -/
def isinstance (v : PyVal) (t : PyAnno) : Bool :=
  match v, t with
  | .int _, .intT => true
  | .str _, .strT => true
  | .float _, .floatT => true
  | .none, .noneT => true
  | _, _ => false

/-- The `FieldType` enum from `pyderive.abc` (STANDARD = 1, INIT_VAR = 2). -/
inductive FieldType where
  | standard
  | initVar
  deriving DecidableEq, Repr

/-- Serde metadata stored on a field by `SerdeField.__post_init__`
(extensions/serde/serde.py): rename key, aliases and the four skip
rules. `skipIf` carries the user-supplied predicate. -/
structure SerdeMetadata where
  rename : Option String := Option.none
  aliases : List String := []
  skip : Bool := false
  skipIf : Option (PyVal → Bool) := Option.none
  skipIfNot : Bool := false
  skipDefault : Bool := false

/-- The `Field` record from `pyderive.abc`: one declared attribute with
its default / default-factory and per-field behaviour flags. -/
structure Field where
  name : String
  anno : PyAnno := .anyT
  default : PyVal := .missing
  default_factory : PyVal := .missing
  init : Bool := true
  repr : Bool := true
  hash : Bool := true
  compare : Bool := true
  kw_only : Bool := false
  frozen : Bool := false
  field_type : FieldType := .standard
  metadata : SerdeMetadata := {}

/-- The function `has_default` from `pyderive.parse`: true when either the plain
default or the default factory is set. -/
def has_default (f : Field) : Bool :=
  f.default != PyVal.missing || f.default_factory != PyVal.missing

/-!
`parse_fields` stores, per class, a `ClassStruct`: the class body's own
fields in declaration order plus a `parent` back-reference to the
ancestor chain's table (`__derive__`).  The names in `order` and the
keys of the `fields` dict coincide, so one table is modelled as the
ordered list of its field specs and the parent chain as a nested
inductive.
-/

/-- A chain of per-class field tables (`ClassStruct` with its `parent`
back-references): `root` is a table with no parent, `child t p` is a
table `t` whose parent chain is `p`. -/
inductive ClassChain where
  | root (table : List Field)
  | child (table : List Field) (parent : ClassChain)

/-- The `heigharchy` list built at the top of `flatten_fields`: walk the
parent references and order the tables from farthest parent to the
class itself (root first). -/
def hierarchy : ClassChain → List (List Field)
  | .root t => [t]
  | .child t p => hierarchy p ++ [t]

/-- The sequence of field specs visited by the merge loop of
`flatten_fields`: each table of the hierarchy in order, each field in
its table's declaration order. -/
def traversal (c : ClassChain) : List Field :=
  (hierarchy c).foldr (fun t acc => t ++ acc) []

/-- One step of the merge in `flatten_fields`: a field whose name is
already present replaces the prior spec in place (keeping the position
of first appearance), a new name is appended. -/
def mergeField (acc : List Field) (f : Field) : List Field :=
  if acc.any (fun g => g.name == f.name) then
    acc.map (fun g => if g.name == f.name then f else g)
  else
    acc ++ [f]

/-- The merge loop of `flatten_fields`, with the `kwargs` flag threaded
exactly as in the source: for each visited spec, `kwargs` latches once a
defaulted spec is seen, and (when `order_kw` is set) a spec without a
default seen while `kwargs` is latched raises
`TypeError: non-default argument ... follows default argument`. -/
def flattenGo (order_kw : Bool) : List Field → Bool → List Field →
    Except String (List Field)
  | [], _, acc => .ok acc
  | f :: rest, kwargs, acc =>
    if order_kw && (kwargs || has_default f) && !(has_default f) then
      .error ("non-default argument " ++ f.name ++ " follows default argument")
    else
      flattenGo order_kw rest (kwargs || has_default f) (mergeField acc f)

/-- The function `flatten_fields` from `pyderive.parse`: order the hierarchy root
first, then run the merge loop over every table's fields with the
ordering check controlled by `order_kw`. -/
def flatten_fields (c : ClassChain) (order_kw : Bool) :
    Except String (List Field) :=
  flattenGo order_kw (traversal c) false []

/-- A field list is validly ordered for positional use when it splits
into a prefix of no-default fields followed only by defaulted fields
(the invariant §3 of the spec states for `ResolvedFieldList`). -/
def OrderedSplit (l : List Field) : Prop :=
  ∃ l₁ l₂, l = l₁ ++ l₂ ∧
    (∀ f ∈ l₁, has_default f = false) ∧
    (∀ f ∈ l₂, has_default f = true)

/-! Helper lemmas about the merge loop. -/

/-- The per-field error raised by the ordering check. -/
def orderErr (f : Field) : String :=
  "non-default argument " ++ f.name ++ " follows default argument"

/-- Unfolding equation for one step of the merge loop. -/
lemma flattenGo_cons (order_kw : Bool) (f : Field) (rest : List Field)
    (kwargs : Bool) (acc : List Field) :
    flattenGo order_kw (f :: rest) kwargs acc =
      if order_kw && (kwargs || has_default f) && !(has_default f) then
        Except.error (orderErr f)
      else
        flattenGo order_kw rest (kwargs || has_default f) (mergeField acc f) := rfl

/-- Once `kwargs` is latched, any remaining spec without a default makes
the checked merge loop raise. -/
lemma flattenGo_error_of_latched :
    ∀ (l acc : List Field), (∃ f ∈ l, has_default f = false) →
      ∃ e, flattenGo true l true acc = Except.error e := by
  intro l
  induction l with
  | nil =>
    intro acc h
    rcases h with ⟨f, hf, _⟩
    cases hf
  | cons f rest ih =>
    intro acc h
    by_cases hd : has_default f = true
    · rcases h with ⟨g, hg, hgd⟩
      rcases List.mem_cons.mp hg with rfl | hg'
      · rw [hd] at hgd; cases hgd
      · rcases ih (mergeField acc f) ⟨g, hg', hgd⟩ with ⟨e, he⟩
        refine ⟨e, ?_⟩
        rw [flattenGo_cons, if_neg (by simp [hd]), hd, Bool.or_true]
        exact he
    · have hd' : has_default f = false := by simpa using hd
      exact ⟨orderErr f, by rw [flattenGo_cons, if_pos (by simp [hd'])]⟩

/-- If every remaining spec has a default, the checked merge loop
succeeds whatever the `kwargs` flag is. -/
lemma flattenGo_ok_of_all_default :
    ∀ (l : List Field) (kwargs : Bool) (acc : List Field),
      (∀ f ∈ l, has_default f = true) →
      ∃ r, flattenGo true l kwargs acc = Except.ok r := by
  intro l
  induction l with
  | nil => intro kwargs acc _; exact ⟨acc, rfl⟩
  | cons f rest ih =>
    intro kwargs acc h
    have hd : has_default f = true := h f (List.mem_cons_self f rest)
    rcases ih (kwargs || has_default f) (mergeField acc f)
        (fun g hg => h g (List.mem_cons_of_mem f hg)) with ⟨r, hr⟩
    exact ⟨r, by rw [flattenGo_cons, if_neg (by simp [hd])]; exact hr⟩

/-- A no-default prefix followed by an all-default suffix passes the
checked merge loop started with `kwargs` unlatched. -/
lemma flattenGo_ok_of_sorted :
    ∀ (l₁ l₂ acc : List Field),
      (∀ f ∈ l₁, has_default f = false) →
      (∀ f ∈ l₂, has_default f = true) →
      ∃ r, flattenGo true (l₁ ++ l₂) false acc = Except.ok r := by
  intro l₁
  induction l₁ with
  | nil => intro l₂ acc _ h₂; exact flattenGo_ok_of_all_default l₂ false acc h₂
  | cons f rest ih =>
    intro l₂ acc h₁ h₂
    have hd : has_default f = false := h₁ f (List.mem_cons_self f rest)
    rcases ih l₂ (mergeField acc f)
        (fun g hg => h₁ g (List.mem_cons_of_mem f hg)) h₂ with ⟨r, hr⟩
    refine ⟨r, ?_⟩
    rw [List.cons_append, flattenGo_cons, if_neg (by simp [hd]), hd]
    exact hr

/-- A defaulted spec visited anywhere before a no-default spec makes the
checked merge loop raise, for any initial `kwargs` and accumulator. -/
lemma flattenGo_error_of_inversion :
    ∀ (l₁ : List Field) (f : Field) (l₂ : List Field) (g : Field)
      (l₃ : List Field) (kwargs : Bool) (acc : List Field),
      has_default f = true → has_default g = false →
      ∃ e, flattenGo true (l₁ ++ f :: l₂ ++ g :: l₃) kwargs acc
        = Except.error e := by
  intro l₁
  induction l₁ with
  | nil =>
    intro f l₂ g l₃ kwargs acc hf hg
    rcases flattenGo_error_of_latched (l₂ ++ g :: l₃) (mergeField acc f)
        ⟨g, by simp, hg⟩ with ⟨e, he⟩
    refine ⟨e, ?_⟩
    rw [List.nil_append, List.cons_append, flattenGo_cons,
      if_neg (by simp [hf]), hf, Bool.or_true]
    exact he
  | cons h rest ih =>
    intro f l₂ g l₃ kwargs acc hf hg
    by_cases hh : has_default h = true
    · rcases ih f l₂ g l₃ (kwargs || has_default h) (mergeField acc h) hf hg
        with ⟨e, he⟩
      refine ⟨e, ?_⟩
      rw [List.cons_append, List.cons_append, flattenGo_cons,
        if_neg (by simp [hh])]
      exact he
    · have hh' : has_default h = false := by simpa using hh
      by_cases hk : kwargs = true
      · refine ⟨orderErr h, ?_⟩
        rw [List.cons_append, List.cons_append, flattenGo_cons,
          if_pos (by simp [hh', hk])]
      · have hk' : kwargs = false := by simpa using hk
        rcases ih f l₂ g l₃ (kwargs || has_default h) (mergeField acc h) hf hg
          with ⟨e, he⟩
        refine ⟨e, ?_⟩
        rw [List.cons_append, List.cons_append, flattenGo_cons,
          if_neg (by simp [hh', hk'])]
        exact he

/-- Every field list either splits into no-default fields followed by
defaulted fields, or contains a defaulted field strictly before a
no-default field. -/
lemma orderedSplit_or_inversion :
    ∀ l : List Field, OrderedSplit l ∨
      ∃ a f b g c, l = a ++ f :: b ++ g :: c ∧
        has_default f = true ∧ has_default g = false := by
  intro l
  induction l with
  | nil => exact Or.inl ⟨[], [], rfl, by simp, by simp⟩
  | cons f rest ih =>
    rcases ih with ⟨l₁, l₂, heq, h₁, h₂⟩ | ⟨a, p, b, q, c, heq, hp, hq⟩
    · by_cases hd : has_default f = true
      · cases l₁ with
        | nil =>
          refine Or.inl ⟨[], f :: l₂, by simp [heq], by simp, ?_⟩
          intro g hg
          rcases List.mem_cons.mp hg with rfl | hg'
          · exact hd
          · exact h₂ g hg'
        | cons x l₁' =>
          refine Or.inr ⟨[], f, [], x, l₁' ++ l₂, by simp [heq], hd, ?_⟩
          exact h₁ x (List.mem_cons_self x l₁')
      · have hd' : has_default f = false := by simpa using hd
        refine Or.inl ⟨f :: l₁, l₂, by simp [heq], ?_, h₂⟩
        intro g hg
        rcases List.mem_cons.mp hg with rfl | hg'
        · exact hd'
        · exact h₁ g hg'
    · exact Or.inr ⟨f :: a, p, b, q, c, by simp [heq], hp, hq⟩

/-- The traversal of a single-class chain is its own table. -/
lemma traversal_root (t : List Field) : traversal (.root t) = t := by
  simp [traversal, hierarchy]

/-- The checked flatten succeeds exactly when the root-first traversal
of the per-class tables (the pre-merge specs, in visit order) is validly
ordered. -/
lemma flatten_ok_iff_traversal_sorted (c : ClassChain) :
    (∃ l, flatten_fields c true = Except.ok l) ↔ OrderedSplit (traversal c) := by
  constructor
  · intro hok
    rcases orderedSplit_or_inversion (traversal c) with hs | ⟨a, f, b, g, d, heq, hf, hg⟩
    · exact hs
    · rcases hok with ⟨l, hl⟩
      rcases flattenGo_error_of_inversion a f b g d false [] hf hg with ⟨e, he⟩
      rw [flatten_fields, heq, he] at hl
      cases hl
  · rintro ⟨l₁, l₂, heq, h₁, h₂⟩
    rcases flattenGo_ok_of_sorted l₁ l₂ [] h₁ h₂ with ⟨r, hr⟩
    exact ⟨r, by rw [flatten_fields, heq]; exact hr⟩

/-- C1 counterexample: a subclass overrides its ancestor's defaulted
field `a` with a no-default declaration.  The merged field list is the
single no-default field `a`, which is validly ordered, yet the checked
resolution fails mid-merge (while the unchecked merge succeeds and
yields that validly ordered list). -/
theorem flatten_fails_despite_ordered_merge :
    flatten_fields (ClassChain.child [{ name := "a" }]
        (.root [{ name := "a", default := PyVal.int 1 }])) true
      = Except.error "non-default argument a follows default argument"
    ∧ flatten_fields (ClassChain.child [{ name := "a" }]
        (.root [{ name := "a", default := PyVal.int 1 }])) false
      = Except.ok [{ name := "a" }]
    ∧ OrderedSplit [{ name := "a" }] :=
  ⟨rfl, rfl,
    ⟨[{ name := "a" }], [], by simp, by intro f hf; simp at hf; subst hf; rfl,
      by simp⟩⟩

/-- C1 amended: the ordering invariant is checked during the merge,
against each class's pre-merge field specs in root-first visit order:
resolution succeeds exactly when that traversal already has all
no-default specs before all defaulted specs (so a subclass overriding an
ancestor's defaulted field with a no-default declaration fails even
though the merged list is validly ordered). -/
theorem flatten_succeeds_iff_premerge_traversal_ordered (c : ClassChain) :
    (∃ l, flatten_fields c true = Except.ok l) ↔ OrderedSplit (traversal c) :=
  flatten_ok_iff_traversal_sorted c

/-- C2 counterexample: a field list in which every field is keyword-only
and a no-default field follows a defaulted one still fails resolution —
the source's ordering check never consults `kw_only`. -/
theorem flatten_fails_all_kw_only :
    ({ name := "a", default := PyVal.int 1, kw_only := true } : Field).kw_only
        = true
    ∧ ({ name := "b", kw_only := true } : Field).kw_only = true
    ∧ flatten_fields
        (.root [{ name := "a", default := PyVal.int 1, kw_only := true },
          { name := "b", kw_only := true }]) true
      = Except.error "non-default argument b follows default argument" :=
  ⟨rfl, rfl, rfl⟩

/-- C2 amended: keyword-only fields are not exempt from the ordering
constraint; an all-keyword-only field list resolves successfully exactly
when no field without a default appears after a field with a default. -/
theorem flatten_all_kw_only_succeeds_iff_ordered (fs : List Field)
    (hkw : ∀ f ∈ fs, f.kw_only = true) :
    (∃ l, flatten_fields (.root fs) true = Except.ok l) ↔ OrderedSplit fs := by
  have h := flatten_ok_iff_traversal_sorted (.root fs)
  rwa [traversal_root] at h

/-- Witness for the amended C2 theorem at a concrete all-keyword-only
field list. -/
theorem flatten_all_kw_only_succeeds_iff_ordered_witness :
    (∃ l, flatten_fields (.root [{ name := "a", kw_only := true },
        { name := "b", default := PyVal.int 1, kw_only := true }]) true
      = Except.ok l)
    ↔ OrderedSplit [{ name := "a", kw_only := true },
        { name := "b", default := PyVal.int 1, kw_only := true }] :=
  flatten_all_kw_only_succeeds_iff_ordered _
    (by
      intro f hf
      rcases List.mem_cons.mp hf with rfl | hf
      · rfl
      · rcases List.mem_cons.mp hf with rfl | hf
        · rfl
        · cases hf)

/-- C3: a field without a default appearing anywhere after a
non-keyword-only field with a default (plain default or factory) always
makes resolution fail with the ordering error. -/
theorem flatten_fails_nodefault_after_default
    (l₁ l₂ l₃ : List Field) (f g : Field)
    (hf : has_default f = true) (hfk : f.kw_only = false)
    (hg : has_default g = false) :
    ∃ e, flatten_fields (.root (l₁ ++ f :: l₂ ++ g :: l₃)) true
      = Except.error e := by
  rw [flatten_fields, traversal_root]
  exact flattenGo_error_of_inversion l₁ f l₂ g l₃ false [] hf hg

/-- Witness for C3 at the concrete declaration
`record(a: int = 1, b: str)` from the spec's Scenario B. -/
theorem flatten_fails_nodefault_after_default_witness :
    has_default { name := "a", default := PyVal.int 1 } = true
    ∧ ({ name := "a", default := PyVal.int 1 } : Field).kw_only = false
    ∧ has_default ({ name := "b" } : Field) = false
    ∧ ∃ e, flatten_fields
        (.root ([] ++ { name := "a", default := PyVal.int 1 }
          :: [] ++ ({ name := "b" } : Field) :: []))
        true = Except.error e :=
  ⟨rfl, rfl, rfl,
    flatten_fails_nodefault_after_default [] [] [] _ _ rfl rfl rfl⟩

/-!
Hash synthesis decision logic (src/pyderive/dataclass.py).  `HASH_ACTIONS`
maps `(unsafe_hash, eq, frozen, has_explicit_hash)` to the action taken
on `__hash__`; `_process_class` computes the `explicit` key from the
class dict and dispatches into the table.
-/

/-- The possible hash actions: leave `__hash__` untouched (`None` entry),
set it to `None` (`_hash_none`), synthesize it from the hashable fields
(`_hash_add`), or raise (`_hash_err`). -/
inductive HashAction where
  | untouched
  | setNone
  | add
  | err
  deriving DecidableEq, Repr

/-- The `HASH_ACTIONS` table from `dataclass.py`, row for row. -/
def HASH_ACTIONS (unsafe_hash eq frozen explicit : Bool) : HashAction :=
  match unsafe_hash, eq, frozen, explicit with
  | false, false, false, false => .untouched
  | false, false, false, true  => .untouched
  | false, false, true,  false => .untouched
  | false, false, true,  true  => .untouched
  | false, true,  false, false => .setNone
  | false, true,  false, true  => .untouched
  | false, true,  true,  false => .add
  | false, true,  true,  true  => .untouched
  | true,  false, false, false => .add
  | true,  false, false, true  => .err
  | true,  false, true,  false => .add
  | true,  false, true,  true  => .err
  | true,  true,  false, false => .add
  | true,  true,  false, true  => .err
  | true,  true,  true,  false => .add
  | true,  true,  true,  true  => .err

/-- The value found under `__hash__` in the class's own dict:
`MISSING` (absent), `None`, or a user-defined function. -/
inductive HashAttr where
  | missingAttr
  | noneAttr
  | funcAttr
  deriving DecidableEq, Repr

/-- The `explicit` computation of `_process_class`:
`explicit = not (class_hash in (MISSING, None) and class_eq)`, with
`class_eq` being the truthiness of the class dict's own `__eq__`. -/
def computeExplicit (class_hash : HashAttr) (class_eq : Bool) : Bool :=
  !((class_hash == .missingAttr || class_hash == .noneAttr) && class_eq)

/-- The hash step of `_process_class`: `__eq__` is present in the class
dict when the decorator synthesized it (`eq` set) or the user defined one
(`user_eq`); `user_hash` is what the user's class body put under
`__hash__`.  The resulting action is the table entry for the computed
key. -/
def processClassHashAction (unsafe_hash eq frozen user_eq : Bool)
    (user_hash : HashAttr) : HashAction :=
  HASH_ACTIONS unsafe_hash eq frozen
    (computeExplicit user_hash (eq || user_eq))

/-- C4: the table row `(T, *, *, F)` does synthesize a hash for every
`eq`/`frozen` combination — but the decorator diverges from the claim:
with `unsafe_hash` requested, `eq` disabled, and the user defining
neither `__hash__` nor `__eq__` (so nothing explicit is present), the
computed `explicit` key is `true` and `_process_class` takes the
`_hash_err` row, raising instead of synthesizing. -/
theorem unsafe_hash_row_synthesizes_but_decorator_errs :
    (∀ eq frozen, HASH_ACTIONS true eq frozen false = HashAction.add)
    ∧ computeExplicit HashAttr.missingAttr false = true
    ∧ (∀ frozen, processClassHashAction true false frozen false
        HashAttr.missingAttr = HashAction.err) := by
  refine ⟨?_, rfl, ?_⟩
  · intro eq frozen
    cases eq <;> cases frozen <;> rfl
  · intro frozen
    cases frozen <;> rfl

/-!
Synthesized comparators (src/pyderive/compile.py, `create_compare`).
The generated body is

    if other.__class__ is self.__class__:
        return (self.f1, ...,) OP (other.f1, ...,)
    raise NotImplemented

An instance is modelled by the identity of its concrete runtime class
and its attribute values; a comparator invocation either returns a bool,
returns the `NotImplemented` object (what the spec describes for type
mismatches), or raises.  In Python 3, `raise NotImplemented` itself
raises `TypeError: exceptions must derive from BaseException`, because
`NotImplemented` is not an exception — so the `raise` statement in the
generated body throws a `TypeError`, it never hands `NotImplemented`
back to the interpreter's dispatch.
-/

/-- Outcome of calling a synthesized comparator. -/
inductive CmpResult where
  | value (b : Bool)
  | notImplementedValue
  | typeErr
  deriving DecidableEq, Repr

/-- A runtime instance: the identity of its concrete class and its
attribute values. -/
structure Instance where
  cls : ℕ
  attrs : String → PyVal

/-- The tuple of compare-flagged field values of an instance, in
resolved field order (the `(self.f1, self.f2, ...)` tuple built by
`create_compare` from `[f.name for f in fields if f.compare]`). -/
def compareTuple (fields : List Field) (x : Instance) : List PyVal :=
  fields.filterMap (fun f => if f.compare then some (x.attrs f.name) else none)

/-- Python tuple equality on the modelled values. -/
def tupleEq (a b : List PyVal) : Bool :=
  decide (a = b)

/-- The function compiled by `create_compare`, parameterized by the
tuple operation `op` (`==`, `<`, `<=`, `>`, `>=`): same concrete class
compares the compare-tuples, any class mismatch executes
`raise NotImplemented`, which throws a `TypeError`. -/
def create_compare (op : List PyVal → List PyVal → Bool)
    (fields : List Field) (self other : Instance) : CmpResult :=
  if other.cls == self.cls then
    .value (op (compareTuple fields self) (compareTuple fields other))
  else
    .typeErr

/-- C5: for every synthesized comparator, operands of differing concrete
classes make the generated body execute `raise NotImplemented`, which
throws a `TypeError` — the call neither returns the `NotImplemented`
object nor any bool, contradicting the spec's no-thrown-type-error
guarantee. -/
theorem compare_type_mismatch_raises
    (op : List PyVal → List PyVal → Bool) (fields : List Field)
    (self other : Instance) (h : self.cls ≠ other.cls) :
    create_compare op fields self other = CmpResult.typeErr := by
  unfold create_compare
  rw [if_neg]
  simpa [beq_iff_eq] using fun hc => h hc.symm

/-- Witness for C5 at concrete instances of two different classes. -/
theorem compare_type_mismatch_raises_witness :
    (0 : ℕ) ≠ (1 : ℕ)
    ∧ create_compare tupleEq [{ name := "a" }]
        ⟨0, fun _ => PyVal.int 1⟩ ⟨1, fun _ => PyVal.int 1⟩
      = CmpResult.typeErr :=
  ⟨by decide,
    compare_type_mismatch_raises tupleEq [{ name := "a" }]
      ⟨0, fun _ => PyVal.int 1⟩ ⟨1, fun _ => PyVal.int 1⟩ (by decide)⟩

/-- C6: synthesized equality is reflexive and symmetric on instances of
the same concrete class (it compares the compare-flagged field tuples),
but comparing a subclass instance with a parent-class instance holding
identical compare-field values does not evaluate to "not equal": the
generated body raises a `TypeError` (via `raise NotImplemented`), shown
here at parent class 0 and subclass 1 with equal field values. -/
theorem eq_reflexive_symmetric_but_cross_class_raises :
    (∀ (fields : List Field) (x : Instance),
      create_compare tupleEq fields x x = CmpResult.value true)
    ∧ (∀ (fields : List Field) (x y : Instance),
      create_compare tupleEq fields x y = create_compare tupleEq fields y x)
    ∧ create_compare tupleEq [{ name := "a" }]
        ⟨1, fun _ => PyVal.int 1⟩ ⟨0, fun _ => PyVal.int 1⟩
      = CmpResult.typeErr
    ∧ compareTuple [{ name := "a" }] ⟨1, fun _ => PyVal.int 1⟩
      = compareTuple [{ name := "a" }] ⟨0, fun _ => PyVal.int 1⟩ := by
  refine ⟨?_, ?_, rfl, rfl⟩
  · intro fields x
    simp [create_compare, tupleEq]
  · intro fields x y
    by_cases h : x.cls = y.cls
    · simp [create_compare, tupleEq, h, eq_comm]
    · have h' : ¬ y.cls = x.cls := fun hc => h hc.symm
      simp [create_compare, h, h']

/-!
Frozen-field guards (src/pyderive/compile.py, `freeze_fields`).  The
generated `__setattr__`/`__delattr__` check the attribute name against
the tuple of frozen field names and raise `FrozenInstanceError` before
any assignment happens; otherwise they delegate to the normal
(`super()`) attribute machinery.  The instance's attribute storage is
modelled as an association list with Python-dict update semantics.
-/

/-- Python dict assignment `d[k] = v`: replace the value of an existing
key in place, or append a new entry. -/
def setEntry {α : Type} : List (String × α) → String → α → List (String × α)
  | [], k, v => [(k, v)]
  | (k₀, v₀) :: rest, k, v =>
    if k₀ == k then (k₀, v) :: rest else (k₀, v₀) :: setEntry rest k v

/-- Python attribute deletion on the instance dict. -/
def removeEntry {α : Type} : List (String × α) → String → List (String × α)
  | [], _ => []
  | (k₀, v₀) :: rest, k =>
    if k₀ == k then rest else (k₀, v₀) :: removeEntry rest k

/-- The frozen-name tuple built by `freeze_fields` from the class's own
field table: a field's name is guarded when the whole class is frozen or
the field itself is. -/
def frozen_names (struct : List Field) (frozen : Bool) : List String :=
  struct.filterMap (fun f => if frozen || f.frozen then some f.name else none)

/-- The generated `__setattr__`: a guarded name raises
`FrozenInstanceError` (modelled as the error message, paired with the
unchanged instance dict); any other name is assigned normally. -/
def frozen_setattr (names : List String) (st : List (String × PyVal))
    (nm : String) (v : PyVal) : Option String × List (String × PyVal) :=
  if names.contains nm then
    (some ("cannot assign to field " ++ nm), st)
  else
    (Option.none, setEntry st nm v)

/-- The generated `__delattr__`. -/
def frozen_delattr (names : List String) (st : List (String × PyVal))
    (nm : String) : Option String × List (String × PyVal) :=
  if names.contains nm then
    (some ("cannot delete field " ++ nm), st)
  else
    (Option.none, removeEntry st nm)

/-- A frozen field's name is in the guard tuple. -/
lemma frozen_names_contains (struct : List Field) (frozen : Bool)
    (f : Field) (hf : f ∈ struct) (hfr : (frozen || f.frozen) = true) :
    (frozen_names struct frozen).contains f.name = true := by
  have hm : f.name ∈ frozen_names struct frozen :=
    List.mem_filterMap.mpr ⟨f, hf, by rw [if_pos hfr]⟩
  simpa using hm

/-- C7: for every frozen field of a constructed instance (the class
frozen as a whole or the field individually), the generated guards make
any write or delete of that field raise `FrozenInstanceError` and leave
the instance dict — in particular the field's stored value — unchanged. -/
theorem frozen_write_raises_and_preserves
    (struct : List Field) (frozen : Bool) (f : Field)
    (hf : f ∈ struct) (hfr : (frozen || f.frozen) = true)
    (st : List (String × PyVal)) (v : PyVal) :
    frozen_setattr (frozen_names struct frozen) st f.name v
      = (some ("cannot assign to field " ++ f.name), st)
    ∧ frozen_delattr (frozen_names struct frozen) st f.name
      = (some ("cannot delete field " ++ f.name), st) := by
  have hc := frozen_names_contains struct frozen f hf hfr
  exact ⟨by rw [frozen_setattr, if_pos hc], by rw [frozen_delattr, if_pos hc]⟩

/-- Witness for C7: a frozen field `x` of a one-field record with stored
value 1; writing 2 and deleting both raise and preserve the dict. -/
theorem frozen_write_raises_and_preserves_witness :
    ({ name := "x", frozen := true } : Field) ∈
        [({ name := "x", frozen := true } : Field)]
    ∧ (false || ({ name := "x", frozen := true } : Field).frozen) = true
    ∧ frozen_setattr (frozen_names [{ name := "x", frozen := true }] false)
        [("x", PyVal.int 1)] "x" (PyVal.int 2)
      = (some "cannot assign to field x", [("x", PyVal.int 1)])
    ∧ frozen_delattr (frozen_names [{ name := "x", frozen := true }] false)
        [("x", PyVal.int 1)] "x"
      = (some "cannot delete field x", [("x", PyVal.int 1)]) := by
  have h := frozen_write_raises_and_preserves
    [{ name := "x", frozen := true }] false { name := "x", frozen := true }
    (List.mem_singleton.mpr rfl) rfl [("x", PyVal.int 1)] (PyVal.int 2)
  exact ⟨List.mem_singleton.mpr rfl, rfl, h.1, h.2⟩

/-!
Record detection and field introspection (src/pyderive/dataclass.py).
`_process_class` stores the resolved field list on the decorated class
under `__derive_datafields__`; `is_dataclass` is a `hasattr` check and
`fields` a `getattr`, both of which follow Python's class-attribute
lookup along the MRO.  A class is modelled by the list of the own-dicts
of the classes on its MRO, most-derived first; only the stored field
list is relevant to the lookup.
-/

/-- The `__derive_datafields__` attribute name. -/
def FIELD_ATTR : String := "__derive_datafields__"

/-- A class for attribute-lookup purposes: the own `__dict__`s of the
classes on its MRO, most-derived first. -/
structure PyType where
  mro : List (List (String × List Field))

/-- Python class-attribute lookup: first hit along the MRO. -/
def getattr_mro : List (List (String × List Field)) → String →
    Option (List Field)
  | [], _ => Option.none
  | d :: rest, nm =>
    match d.lookup nm with
    | some v => some v
    | Option.none => getattr_mro rest nm

/-- The function `is_dataclass` from `dataclass.py`: `hasattr(cls, FIELD_ATTR)`. -/
def is_dataclass (t : PyType) : Bool :=
  (getattr_mro t.mro FIELD_ATTR).isSome

/-- The function `fields` from `dataclass.py`: raises `TypeError` unless
`is_dataclass`, then returns `getattr(cls, FIELD_ATTR)`. -/
def fields_of (t : PyType) : Except String (List Field) :=
  match getattr_mro t.mro FIELD_ATTR with
  | some fl => .ok fl
  | Option.none => .error "fields() should with a dataclass type or instance"

/-- The `setattr(cls, FIELD_ATTR, fields)` performed by `_process_class` on
the decorated class's own dict. -/
def storeFields (own : List (String × List Field)) (fl : List Field) :
    List (String × List Field) :=
  setEntry own FIELD_ATTR fl

/-- Looking up the key just stored finds the stored value. -/
lemma lookup_setEntry {α : Type} (d : List (String × α)) (k : String)
    (v : α) : (setEntry d k v).lookup k = some v := by
  induction d with
  | nil => simp [setEntry]
  | cons e rest ih =>
    obtain ⟨k₀, v₀⟩ := e
    by_cases h : k₀ = k
    · subst h
      simp [setEntry, List.lookup]
    · have hb : (k == k₀) = false := by simpa using Ne.symm h
      simp [setEntry, List.lookup, h, hb, ih]

/-- C10: a subclass of a decorated record class that never went through
the decorator itself still satisfies `is_dataclass`, and `fields`
returns the base class's resolved field list: the subclass's own dict
lacks `__derive_datafields__`, so the MRO lookup reaches the base's
stored attribute. -/
theorem subclass_inherits_record_detection
    (subOwn baseOwn : List (String × List Field))
    (baseRest : List (List (String × List Field))) (fl : List Field)
    (hsub : subOwn.lookup FIELD_ATTR = Option.none) :
    is_dataclass ⟨subOwn :: storeFields baseOwn fl :: baseRest⟩ = true
    ∧ fields_of ⟨subOwn :: storeFields baseOwn fl :: baseRest⟩
      = Except.ok fl := by
  have hstep : getattr_mro (subOwn :: storeFields baseOwn fl :: baseRest)
      FIELD_ATTR = some fl := by
    simp [getattr_mro, hsub, storeFields, lookup_setEntry]
  constructor
  · simp [is_dataclass, hstep]
  · simp [fields_of, hstep]

/-- Witness for C10: an undecorated subclass with an empty own dict over
a decorated base holding one resolved field. -/
theorem subclass_inherits_record_detection_witness :
    (([] : List (String × List Field)).lookup FIELD_ATTR = Option.none)
    ∧ is_dataclass ⟨[] :: storeFields [] [{ name := "a" }] :: []⟩ = true
    ∧ fields_of ⟨[] :: storeFields [] [{ name := "a" }] :: []⟩
      = Except.ok [{ name := "a" }] := by
  have h := subclass_inherits_record_detection [] [] [] [{ name := "a" }] rfl
  exact ⟨rfl, h.1, h.2⟩

/-!
Validation layer (src/pyderive/extensions/validate/validators.py),
specialized to the shapes Scenario C exercises: a field annotated
`Union[int, str]` with typecasting disabled.  `type_validator` compiles
`simple_validator(int, False)` and `simple_validator(str, False)` and
wraps them in `union_validator`; `field_validator` converts an escaping
`ValidationError` into a `FieldValidationError` whose path starts with
the field's name.  All validators below embed the `typecast=False`
branches of the source (Scenario C disables coercion, so the
`if typecast:` blocks are dead).
-/

/-- The name `_anno_name` computes for the modelled annotations. -/
def anno_name : PyAnno → String
  | .strT => "string"
  | .intT => "integer"
  | .floatT => "float"
  | .noneT => "NoneType"
  | .anyT => "Any"

/-- The name `_anno_name(type(value))` computes for the modelled values. -/
def type_name : PyVal → String
  | .int _ => "integer"
  | .str _ => "string"
  | .float _ => "float"
  | .none => "NoneType"
  | .missing => "MISSING"

/-- The `ValidationError` payload: expected annotation names, offending
value, machine-readable error kind, message and nesting path. -/
structure ValidationErr where
  annoNames : List String
  value : PyVal
  etype : String
  message : String
  path : List String
  deriving DecidableEq, Repr

/-- The `FieldValidationError` payload produced by `convert_error` /
`FieldValidationError.__init__`: its path starts with the field name. -/
structure FieldValidationErr where
  title : String
  fieldName : String
  etype : String
  message : String
  path : List String
  deriving DecidableEq, Repr

/-- The validator `simple_validator(anno, typecast=False)`: `check_missing`, then
accept exact instances, otherwise raise `parse_<name>`. -/
def simple_validator (anno : PyAnno) (v : PyVal) :
    Except ValidationErr PyVal :=
  if v = PyVal.missing then
    .error ⟨[anno_name anno], PyVal.none, "missing", "Field required", []⟩
  else if isinstance v anno then
    .ok v
  else
    .error ⟨[anno_name anno], v, "parse_" ++ anno_name anno,
      "Invalid " ++ anno_name anno, []⟩

/-- The retry loop of `union_validator`: run each alternative's
validator in order, first success wins, a `ValueError`
(every `ValidationError` is one) moves on to the next; when all fail,
raise `parse_union`. -/
def tryEach (annoNames : List String) (v : PyVal) :
    List (PyVal → Except ValidationErr PyVal) → Except ValidationErr PyVal
  | [] => .error ⟨annoNames, v, "parse_union", "Unable to Match Union", []⟩
  | f :: rest =>
    match f v with
    | .ok r => .ok r
    | .error _ => tryEach annoNames v rest

/-- The validator `union_validator`: `check_missing`, fast-path accept when the value
is already an instance of a non-composite alternative, otherwise try
each alternative's validator in order. -/
def union_validator (annoNames : List String) (fastPath : List PyAnno)
    (validators : List (PyVal → Except ValidationErr PyVal)) (v : PyVal) :
    Except ValidationErr PyVal :=
  if v = PyVal.missing then
    .error ⟨annoNames, PyVal.none, "missing", "Field required", []⟩
  else if fastPath.any (isinstance v) then
    .ok v
  else
    tryEach annoNames v validators

/-- The function `convert_error`: wrap a `ValidationError` escaping a field's type
validator into a `FieldValidationError` whose path is the field name
followed by the inner error's path. -/
def convert_error (title : String) (f : Field) (v : PyVal)
    (e : ValidationErr) : FieldValidationErr :=
  { title := title
    fieldName := f.name
    etype := e.etype
    message :=
      if e.etype != "missing" then
        "Input should be a valid " ++ String.intercalate "/" e.annoNames
          ++ ", unable to parse " ++ type_name v ++ ". " ++ e.message
      else e.message
    path := f.name :: e.path }

/-- The function `field_validator`: run the compiled type validator, converting an
escaping `ValidationError` via `convert_error`. -/
def field_validator (title : String) (f : Field)
    (tv : PyVal → Except ValidationErr PyVal) (v : PyVal) :
    Except FieldValidationErr PyVal :=
  match tv v with
  | .ok r => .ok r
  | .error e => .error (convert_error title f v e)

/-- The validator compiled for the field `a: Union[int, str]` with
coercion disabled: `type_validator` walks `Union[int, str]`, producing
`union_validator` over `simple_validator(int)` and
`simple_validator(str)`; `union_validator` collects the non-composite
alternatives (popped in reverse: str, then int) for the fast-path
`isinstance` check and the error names. -/
def validator_a : PyVal → Except FieldValidationErr PyVal :=
  field_validator "Record" { name := "a" }
    (union_validator ["string", "integer"] [.strT, .intT]
      [simple_validator .intT, simple_validator .strT])

/-- C8: Scenario C — with `a: Union[int, str]` and coercion disabled,
every int and every str is accepted unchanged via the fast path, and the
float 3/2 fails with the union-validation error `parse_union` whose path
is exactly `["a"]`. -/
theorem union_int_str_field_validation :
    (∀ n : ℤ, validator_a (PyVal.int n) = Except.ok (PyVal.int n))
    ∧ (∀ s : String, validator_a (PyVal.str s) = Except.ok (PyVal.str s))
    ∧ ∃ e, validator_a (PyVal.float (3 / 2)) = Except.error e
        ∧ e.etype = "parse_union" ∧ e.path = ["a"] := by
  refine ⟨fun n => rfl, fun s => rfl, ⟨_, rfl, rfl, rfl⟩⟩

/-!
Structural conversion (src/pyderive/extensions/serde/serde.py) for flat
records: every field's annotation is atomic, so `_parse_object` never
recurses, `_get_dataclasses` yields just the record's own class, and
`asdict`'s `copy.deepcopy` of an atomic modelled value is the value
itself.  Instances are their attribute dicts (association lists with
Python-dict update semantics, cf. `setEntry`).  The constructor invoked
by `from_mapping` through `cls(**attrs)` is the synthesized `__init__`
of `create_init` (src/pyderive/compile.py) called with keyword
arguments only.
-/

/-- The key `field.metadata.get(RENAME_ATTR) or field.name`: the serialization
key of a field (Python `or` falls through on `None` and on the empty
string, both falsy). -/
def rename_or_name (f : Field) : String :=
  match f.metadata.rename with
  | some r => if r = "" then f.name else r
  | Option.none => f.name

/-- Python truthiness of the modelled values (`MISSING` is a plain
class, hence truthy). -/
def isFalsy : PyVal → Bool
  | .none => true
  | .int n => n == 0
  | .str s => s == ""
  | .float q => q == 0
  | .missing => false

/-- The function `skip_field` from `serde.py`: `skip` always skips; `skip_default`
compares against the plain default (when set) or the factory's value;
otherwise `skip_if` and `skip_if_false` are consulted. -/
def skip_field (f : Field) (v : PyVal) : Bool :=
  if f.metadata.skip then true
  else if f.metadata.skipDefault && f.default != PyVal.missing then
    v == f.default
  else if f.metadata.skipDefault && f.default_factory != PyVal.missing then
    v == f.default_factory
  else
    match f.metadata.skipIf with
    | some p => p v
    | Option.none => if f.metadata.skipIfNot then isFalsy v else false

/-- The keys under which a field is registered by `field_dict` and
reserved by `validate_serde`: its rename-or-name, then its aliases. -/
def serdeKeys (f : Field) : List String :=
  rename_or_name f :: f.metadata.aliases

/-- The function `field_dict` from `serde.py`: a dict keyed by every field's
rename-or-name and each of its aliases. -/
def field_dict (fs : List Field) : List (String × Field) :=
  fs.foldl (fun d f => (serdeKeys f).foldl (fun d k => setEntry d k f) d) []

/-- The alias-registration loop of `validate_serde`: each alias must be
unreserved, then reserves itself. -/
def addAliases : List String → List String → Except String (List String)
  | [], names => .ok names
  | a :: rest, names =>
    if names.contains a then .error ("alias: " ++ a ++ " already reserved.")
    else addAliases rest (a :: names)

/-- The function `validate_serde` from `serde.py`: unique renames/aliases, mutually
exclusive skip settings, and skips only on defaulted fields. -/
def validateSerdeGo : List Field → List String → Except String Unit
  | [], _ => .ok ()
  | f :: rest, names =>
    let newname := rename_or_name f
    if names.contains newname then
      .error ("rename: " ++ newname ++ " already reserved.")
    else
      match addAliases f.metadata.aliases (newname :: names) with
      | .error e => .error e
      | .ok names' =>
        if f.metadata.skip && f.metadata.skipIf.isSome then
          .error ("field: " ++ f.name ++ " cannot use skip_if w/ skip")
        else if f.metadata.skip && f.metadata.skipIfNot then
          .error ("field: " ++ f.name ++ " cannot use skip_if_false w/ skip")
        else if f.metadata.skip && f.metadata.skipDefault then
          .error ("field: " ++ f.name ++ " cannot use skip_default w/ skip")
        else if !(has_default f) && (f.metadata.skip || f.metadata.skipIf.isSome
            || f.metadata.skipIfNot || f.metadata.skipDefault) then
          .error ("field: " ++ f.name ++ " cannot offer skip w/o default")
        else validateSerdeGo rest names'

/-- Entry point of `validate_serde` with an empty reserved-name set. -/
def validate_serde (fs : List Field) : Except String Unit :=
  validateSerdeGo fs []

/-- The function `_parse_object` recurses only when the annotation is itself a
dataclass; the modelled annotations are atomic, so the value is
returned unchanged. -/
def parse_object (anno : PyAnno) (v : PyVal) : PyVal :=
  v

/-- The `fdict = {f.name: f for f in fields(cls)}` of
`_gen_dict_factory`. -/
def name_dict (fs : List Field) : List (String × Field) :=
  fs.foldl (fun d f => setEntry d f.name f) []

/-- The generated dict factory of `_gen_dict_factory`: each
`(name, value)` item must name a known field, skipped fields are
dropped, and the remaining values are stored under the field's
rename-or-name. -/
def dictFactoryGo (fs : List Field) :
    List (String × PyVal) → List (String × PyVal) →
    Except String (List (String × PyVal))
  | [], out => .ok out
  | (nm, v) :: rest, out =>
    match (name_dict fs).lookup nm with
    | Option.none => .error ("Unexpected Key: " ++ nm)
    | some f =>
      if skip_field f v then dictFactoryGo fs rest out
      else dictFactoryGo fs rest (setEntry out (rename_or_name f) v)

/-- The item list `[(f.name, getattr(obj, f.name))]` built by
`_asdict_inner` over the record's resolved fields; a field never stored
on the instance raises `AttributeError`. -/
def asdict_items (inst : List (String × PyVal)) :
    List Field → Except String (List (String × PyVal))
  | [] => .ok []
  | f :: rest =>
    match inst.lookup f.name with
    | some v => (asdict_items inst rest).map (fun t => (f.name, v) :: t)
    | Option.none => .error ("AttributeError: " ++ f.name)

/-- The function `to_dict` on a flat record: walk the resolved fields via `asdict`
and feed the items through the record's generated dict factory. -/
def to_dict (fs : List Field) (inst : List (String × PyVal)) :
    Except String (List (String × PyVal)) :=
  match asdict_items inst fs with
  | .error e => .error e
  | .ok items => dictFactoryGo fs items []

/-- The key/value loop of `from_mapping`: unknown keys raise `KeyError`
(unless allowed), known keys resolve through `field_dict`, values pass
`_parse_object`, and non-skipped values are collected as constructor
keyword arguments under the field's real name. -/
def fromMappingGo (fdict : List (String × Field)) (allow_unknown : Bool) :
    List (String × PyVal) → List (String × PyVal) →
    Except String (List (String × PyVal))
  | [], attrs => .ok attrs
  | (k, v) :: rest, attrs =>
    match fdict.lookup k with
    | Option.none =>
      if allow_unknown then fromMappingGo fdict allow_unknown rest attrs
      else .error ("Unknown Key: " ++ k)
    | some f =>
      let v := parse_object f.anno v
      if skip_field f v then fromMappingGo fdict allow_unknown rest attrs
      else fromMappingGo fdict allow_unknown rest (setEntry attrs f.name v)

/-- The keyword parameters of the synthesized `__init__`: every
`init`-enabled field. -/
def init_param_names (fs : List Field) : List String :=
  fs.filterMap (fun f => if f.init then some f.name else none)

/-- Python's call check: every supplied keyword argument must match a
parameter of the synthesized `__init__`. -/
def checkKwargs (params : List String) :
    List (String × PyVal) → Except String Unit
  | [] => .ok ()
  | (k, _) :: rest =>
    if params.contains k then checkKwargs params rest
    else .error ("unexpected keyword argument " ++ k)

/-- The stored value computed for one field by the synthesized
`__init__` (`_init_param`/`_init_value`): an `init` field takes the
caller's keyword value when supplied, else its factory's value (the
`HAS_DEFAULT_FACTORY` sentinel branch), else its literal default, else
the call fails as missing; a non-`init` field evaluates its factory or
default, and having neither is a synthesis-time error. -/
def initValue (attrs : List (String × PyVal)) (f : Field) :
    Except String PyVal :=
  if f.init then
    match attrs.lookup f.name with
    | some v => .ok v
    | Option.none =>
      if f.default_factory != PyVal.missing then .ok f.default_factory
      else if f.default != PyVal.missing then .ok f.default
      else .error ("missing required argument: " ++ f.name)
  else
    if f.default_factory != PyVal.missing then .ok f.default_factory
    else if f.default != PyVal.missing then .ok f.default
    else .error ("field " ++ f.name ++ " has no default value")

/-- The assignment loop of the synthesized `__init__` body: every field
in resolved order computes its value and is assigned onto the instance.
The source appends the `self.<name>=<value>` assignment unconditionally
— for `INIT_VAR` pseudo-fields too, whose values are additionally
forwarded to `__post_init__` as positional arguments. -/
def initBody (attrs : List (String × PyVal)) :
    List Field → Except String (List (String × PyVal))
  | [] => .ok []
  | f :: rest =>
    match initValue attrs f with
    | .error e => .error e
    | .ok v =>
      match initBody attrs rest with
      | .error e => .error e
      | .ok tail => .ok ((f.name, v) :: tail)

/-- The synthesis-time guard of `create_init`: an `INIT_VAR` field with
a default factory raises `TypeError` while the constructor is being
generated, so a class declaring one never comes into existence (its
constructor can never be called). -/
def create_init_guard : List Field → Except String Unit
  | [] => .ok ()
  | f :: rest =>
    if f.field_type == FieldType.initVar
        && f.default_factory != PyVal.missing then
      .error ("init field " ++ f.name ++ " cannot have a default factory")
    else create_init_guard rest

/-- The call `cls(**attrs)`: the constructor exists only when the
synthesis-time guard passed at decoration time; Python then validates
the keyword arguments against the synthesized signature and the
generated body builds the instance. -/
def call_init (fs : List Field) (attrs : List (String × PyVal)) :
    Except String (List (String × PyVal)) :=
  match create_init_guard fs with
  | .error e => .error e
  | .ok _ =>
    match checkKwargs (init_param_names fs) attrs with
    | .error e => .error e
    | .ok _ => initBody attrs fs

/-- The function `from_mapping` on a flat record: validate the serde configuration
unless the class is already serde-validated (`is_serde`), walk the
mapping, and construct via `cls(**attrs)`. -/
def from_mapping (fs : List Field) (serde_validated allow_unknown : Bool)
    (m : List (String × PyVal)) : Except String (List (String × PyVal)) :=
  match (if serde_validated then .ok () else validate_serde fs :
      Except String Unit) with
  | .error e => .error e
  | .ok _ =>
    match fromMappingGo (field_dict fs) allow_unknown m [] with
    | .error e => .error e
    | .ok attrs => call_init fs attrs

/-- The compare-tuple of a dict-stored instance (the same-class branch
of the synthesized `__eq__`, cf. `create_compare`). -/
def compare_tuple_inst (fs : List Field) (inst : List (String × PyVal)) :
    List (Option PyVal) :=
  fs.filterMap (fun f => if f.compare then some (inst.lookup f.name) else none)

/-- Synthesized equality between two instances of the same concrete
record class: their compare-tuples must agree. -/
def record_eq (fs : List Field) (a b : List (String × PyVal)) : Bool :=
  decide (compare_tuple_inst fs a = compare_tuple_inst fs b)

/-- The attribute dict of a constructed instance whose field values are
given by `v` (every field stored under its name, as the generated
`__init__` body assigns each one). -/
def instOf (fs : List Field) (v : String → PyVal) :
    List (String × PyVal) :=
  fs.map (fun f => (f.name, v f.name))

/-! Association-list helper lemmas for the round-trip proof. -/

/-- Lookup distributes over append: the left part wins when it has the
key. -/
lemma lookup_append {α : Type} (l₁ l₂ : List (String × α)) (k : String) :
    (l₁ ++ l₂).lookup k =
      match l₁.lookup k with
      | some v => some v
      | Option.none => l₂.lookup k := by
  induction l₁ with
  | nil => simp [List.lookup]
  | cons e rest ih =>
    obtain ⟨k₀, v₀⟩ := e
    by_cases h : k = k₀
    · simp [List.lookup, h]
    · have hb : (k == k₀) = false := by simpa using h
      simp [List.lookup, hb, ih]

/-- Cons step of lookup past a non-matching key. -/
lemma lookup_cons_ne {α : Type} (k k₀ : String) (v₀ : α)
    (rest : List (String × α)) (h : (k == k₀) = false) :
    List.lookup k ((k₀, v₀) :: rest) = List.lookup k rest := by
  simp [List.lookup, h]

/-- Inserting a fresh key appends the entry (Python dicts preserve
insertion order). -/
lemma setEntry_append_of_fresh {α : Type} (l : List (String × α))
    (k : String) (v : α) (h : l.lookup k = Option.none) :
    setEntry l k v = l ++ [(k, v)] := by
  induction l with
  | nil => simp [setEntry]
  | cons e rest ih =>
    obtain ⟨k₀, v₀⟩ := e
    by_cases hk : k₀ = k
    · subst hk
      simp [List.lookup] at h
    · have hb : (k₀ == k) = false := by simpa using hk
      have hk' : (k == k₀) = false := by simpa using Ne.symm hk
      rw [lookup_cons_ne k k₀ v₀ rest hk'] at h
      simp [setEntry, hb, ih h]

/-- A keyed map has no entry for an absent key. -/
lemma lookup_map_pair_none {α β : Type} (key : β → String) (val : β → α)
    (l : List β) (k : String) (hk : k ∉ l.map key) :
    (l.map (fun b => (key b, val b))).lookup k = Option.none := by
  induction l with
  | nil => simp [List.lookup]
  | cons b rest ih =>
    rw [List.map_cons] at hk
    have h1 : ¬ k = key b := fun h => hk (List.mem_cons.mpr (Or.inl h))
    have h2 : k ∉ rest.map key := fun h => hk (List.mem_cons.mpr (Or.inr h))
    have hb : (k == key b) = false := by simpa using h1
    rw [List.map_cons, lookup_cons_ne k (key b) (val b) _ hb]
    exact ih h2

/-- When the stored value is a function of the key, membership alone
determines the lookup result. -/
lemma lookup_map_pair_of_mem {α β : Type} (key : β → String)
    (w : String → α) (l : List β) (b : β) (hb : b ∈ l) :
    (l.map (fun x => (key x, w (key x)))).lookup (key b)
      = some (w (key b)) := by
  induction l with
  | nil => cases hb
  | cons x rest ih =>
    by_cases h : key b = key x
    · simp [List.lookup, h]
    · have hbeq : (key b == key x) = false := by simpa using h
      have hb' : b ∈ rest := by
        rcases List.mem_cons.mp hb with rfl | hb'
        · exact absurd rfl h
        · exact hb'
      simp [List.lookup, hbeq, ih hb']

/-- Folding fresh-key insertions over an accumulator appends the keyed
map, in order. -/
lemma foldl_setEntry_append {α β : Type} (key : β → String) (val : β → α) :
    ∀ (l : List β) (acc : List (String × α)),
      (∀ b ∈ l, acc.lookup (key b) = Option.none) →
      (l.map key).Nodup →
      l.foldl (fun d b => setEntry d (key b) (val b)) acc
        = acc ++ l.map (fun b => (key b, val b)) := by
  intro l
  induction l with
  | nil => intro acc _ _; simp
  | cons b rest ih =>
    intro acc hfresh hnd
    have hacc : setEntry acc (key b) (val b) = acc ++ [(key b, val b)] :=
      setEntry_append_of_fresh acc (key b) (val b)
        (hfresh b (List.mem_cons_self b rest))
    have hnd' : (rest.map key).Nodup := by
      simpa using hnd.of_cons
    have hfresh' : ∀ x ∈ rest, (acc ++ [(key b, val b)]).lookup (key x)
        = Option.none := by
      intro x hx
      rw [lookup_append, hfresh x (List.mem_cons_of_mem b hx)]
      have hne : ¬ key x = key b := by
        intro h
        have := (List.nodup_cons.mp hnd).1
        exact this (h ▸ List.mem_map_of_mem key hx)
      have hb : (key x == key b) = false := by simpa using hne
      simp [List.lookup, hb]
    calc (b :: rest).foldl (fun d x => setEntry d (key x) (val x)) acc
        = rest.foldl (fun d x => setEntry d (key x) (val x))
            (acc ++ [(key b, val b)]) := by
          simp [List.foldl_cons, hacc]
      _ = (acc ++ [(key b, val b)]) ++ rest.map (fun x => (key x, val x)) :=
          ih _ hfresh' hnd'
      _ = acc ++ (b :: rest).map (fun x => (key x, val x)) := by
          simp

/-- With unique field names, `name_dict` is the keyed map of the fields
in order. -/
lemma name_dict_eq (fs : List Field) (h : (fs.map Field.name).Nodup) :
    name_dict fs = fs.map (fun f => (f.name, f)) := by
  have hgen := foldl_setEntry_append Field.name id fs []
    (fun b _ => rfl) h
  simpa [name_dict] using hgen

/-- With unique field names, looking a field's name up in the keyed map
finds that field. -/
lemma lookup_map_name_id :
    ∀ (fs : List Field), (fs.map Field.name).Nodup → ∀ f ∈ fs,
      (fs.map (fun g => (g.name, g))).lookup f.name = some f := by
  intro fs
  induction fs with
  | nil => intro _ f hf; cases hf
  | cons g rest ih =>
    intro hnd f hf
    rw [List.map_cons] at hnd
    by_cases h : f.name = g.name
    · have hfg : f = g := by
        rcases List.mem_cons.mp hf with rfl | hf'
        · rfl
        · exfalso
          apply (List.nodup_cons.mp hnd).1
          rw [← h]
          exact List.mem_map_of_mem Field.name hf'
      subst hfg
      simp [List.lookup]
    · have hb : (f.name == g.name) = false := by simpa using h
      have hf' : f ∈ rest := by
        rcases List.mem_cons.mp hf with rfl | hf'
        · exact absurd rfl h
        · exact hf'
      rw [List.map_cons, lookup_cons_ne _ _ _ _ hb]
      exact ih (List.nodup_cons.mp hnd).2 f hf'

/-- The `name_dict` lookup of a field's own name. -/
lemma lookup_name_dict (fs : List Field) (h : (fs.map Field.name).Nodup)
    (f : Field) (hf : f ∈ fs) :
    (name_dict fs).lookup f.name = some f := by
  rw [name_dict_eq fs h]
  exact lookup_map_name_id fs h f hf

/-- With globally unique serde keys, `field_dict` is the concatenation
of each field's key block, in order. -/
lemma field_dict_go :
    ∀ (fs : List Field) (acc : List (String × Field)),
      (∀ k ∈ fs.flatMap serdeKeys, acc.lookup k = Option.none) →
      (fs.flatMap serdeKeys).Nodup →
      fs.foldl (fun d f => (serdeKeys f).foldl (fun d k => setEntry d k f) d)
          acc
        = acc ++ fs.flatMap (fun f => (serdeKeys f).map (fun k => (k, f))) := by
  intro fs
  induction fs with
  | nil => intro acc _ _; simp
  | cons f rest ih =>
    intro acc hfresh hnd
    rw [List.flatMap_cons] at hnd
    obtain ⟨hnd1, hnd2, hdisj⟩ := List.nodup_append.mp hnd
    have hfr1 : ∀ k ∈ serdeKeys f, acc.lookup k = Option.none := by
      intro k hk
      exact hfresh k (by rw [List.flatMap_cons]; exact
        List.mem_append.mpr (Or.inl hk))
    have hinner := foldl_setEntry_append (fun k => k) (fun _ => f)
      (serdeKeys f) acc hfr1 (by simpa using hnd1)
    have hfresh' : ∀ k ∈ rest.flatMap serdeKeys,
        (acc ++ (serdeKeys f).map (fun k' => (k', f))).lookup k
          = Option.none := by
      intro k hk
      have hacc : acc.lookup k = Option.none := by
        exact hfresh k (by rw [List.flatMap_cons]; exact
          List.mem_append.mpr (Or.inr hk))
      rw [lookup_append, hacc]
      exact lookup_map_pair_none (fun k' => k') (fun _ => f) _ k
        (by simpa using fun hmem => hdisj hmem hk)
    calc (f :: rest).foldl
          (fun d g => (serdeKeys g).foldl (fun d k => setEntry d k g) d) acc
        = rest.foldl
            (fun d g => (serdeKeys g).foldl (fun d k => setEntry d k g) d)
            (acc ++ (serdeKeys f).map (fun k => (k, f))) := by
          rw [List.foldl_cons, hinner]
      _ = (acc ++ (serdeKeys f).map (fun k => (k, f)))
            ++ rest.flatMap (fun g => (serdeKeys g).map (fun k => (k, g))) :=
          ih _ hfresh' hnd2
      _ = acc ++ (f :: rest).flatMap
            (fun g => (serdeKeys g).map (fun k => (k, g))) := by
          rw [List.flatMap_cons, List.append_assoc]

/-- Looking a field's rename-or-name key up in the concatenated key
blocks finds that field. -/
lemma lookup_bind_serde :
    ∀ (fs : List Field), (fs.flatMap serdeKeys).Nodup → ∀ f ∈ fs,
      (fs.flatMap (fun g => (serdeKeys g).map (fun k => (k, g)))).lookup
          (rename_or_name f)
        = some f := by
  intro fs
  induction fs with
  | nil => intro _ f hf; cases hf
  | cons g rest ih =>
    intro hnd f hf
    rw [List.flatMap_cons] at hnd
    obtain ⟨hnd1, hnd2, hdisj⟩ := List.nodup_append.mp hnd
    rw [List.flatMap_cons, lookup_append]
    rcases List.mem_cons.mp hf with rfl | hf'
    · have hhead : ((serdeKeys f).map (fun k => (k, f))).lookup
          (rename_or_name f) = some f := by
        simp [serdeKeys, List.lookup]
      rw [hhead]
    · have hmem : rename_or_name f ∈ rest.flatMap serdeKeys :=
        List.mem_flatMap.mpr ⟨f, hf', by simp [serdeKeys]⟩
      have hnone := lookup_map_pair_none (fun k => k) (fun _ => g)
        (serdeKeys g) (rename_or_name f)
        (by simpa using fun hmem' => hdisj hmem' hmem)
      rw [hnone]
      exact ih hnd2 f hf'

/-- The `field_dict` lookup of a field's serialization key. -/
lemma lookup_field_dict (fs : List Field)
    (hk : (fs.flatMap serdeKeys).Nodup) (f : Field) (hf : f ∈ fs) :
    (field_dict fs).lookup (rename_or_name f) = some f := by
  have heq := field_dict_go fs [] (fun k _ => rfl) hk
  rw [field_dict, heq, List.nil_append]
  exact lookup_bind_serde fs hk f hf

/-- Every field's primary serde key, in order, is a sublist of the full
serde key list. -/
lemma map_rename_sublist_bind :
    ∀ (fs : List Field),
      List.Sublist (fs.map rename_or_name) (fs.flatMap serdeKeys) := by
  intro fs
  induction fs with
  | nil => simp
  | cons f rest ih =>
    rw [List.map_cons, List.flatMap_cons]
    show List.Sublist (rename_or_name f :: rest.map rename_or_name)
      ((rename_or_name f :: f.metadata.aliases) ++ rest.flatMap serdeKeys)
    rw [List.cons_append]
    exact List.Sublist.cons₂ _ (ih.trans (List.sublist_append_right _ _))

/-! Pipeline lemmas for the round trip. -/

/-- The `asdict` item collection succeeds and lists every field's stored
value when each field is stored on the instance. -/
lemma asdict_items_ok (inst : List (String × PyVal)) (w : Field → PyVal) :
    ∀ (gl : List Field), (∀ f ∈ gl, inst.lookup f.name = some (w f)) →
      asdict_items inst gl = Except.ok (gl.map (fun f => (f.name, w f))) := by
  intro gl
  induction gl with
  | nil => intro _; rfl
  | cons f rest ih =>
    intro h
    have hf := h f (List.mem_cons_self f rest)
    have htail := ih (fun g hg => h g (List.mem_cons_of_mem f hg))
    simp only [asdict_items, hf, htail, List.map_cons]
    rfl

/-- Unfolding equation for the generated dict factory. -/
lemma dictFactoryGo_cons (fs : List Field) (nm : String) (v : PyVal)
    (rest out : List (String × PyVal)) :
    dictFactoryGo fs ((nm, v) :: rest) out =
      match (name_dict fs).lookup nm with
      | Option.none => Except.error ("Unexpected Key: " ++ nm)
      | some f =>
        if skip_field f v then dictFactoryGo fs rest out
        else dictFactoryGo fs rest (setEntry out (rename_or_name f) v) := rfl

/-- Feeding each field's item through the dict factory drops skipped
fields and stores the rest under their serialization keys. -/
lemma dictFactoryGo_ok (fs : List Field) (w : Field → PyVal) :
    ∀ (gl : List Field) (out : List (String × PyVal)),
      (∀ g ∈ gl, (name_dict fs).lookup g.name = some g) →
      dictFactoryGo fs (gl.map (fun g => (g.name, w g))) out
        = Except.ok (gl.foldl
            (fun out g =>
              if skip_field g (w g) then out
              else setEntry out (rename_or_name g) (w g)) out) := by
  intro gl
  induction gl with
  | nil => intro out _; rfl
  | cons g rest ih =>
    intro out h
    have hg := h g (List.mem_cons_self g rest)
    have htail := fun out => ih out (fun x hx => h x (List.mem_cons_of_mem g hx))
    have hfound : dictFactoryGo fs ((g.name, w g) :: rest.map
        (fun x => (x.name, w x))) out =
        if skip_field g (w g) then
          dictFactoryGo fs (rest.map (fun x => (x.name, w x))) out
        else
          dictFactoryGo fs (rest.map (fun x => (x.name, w x)))
            (setEntry out (rename_or_name g) (w g)) := by
      simp [dictFactoryGo_cons, hg]
    rw [List.map_cons, hfound, List.foldl_cons]
    by_cases hs : skip_field g (w g) = true
    · rw [if_pos hs, if_pos hs, htail out]
    · have hs' : skip_field g (w g) = false := by simpa using hs
      rw [if_neg (by simp [hs']), if_neg (by simp [hs']), htail _]

/-- Unfolding equation for the `from_mapping` key/value loop. -/
lemma fromMappingGo_cons (fdict : List (String × Field))
    (allow_unknown : Bool) (k : String) (v : PyVal)
    (rest attrs : List (String × PyVal)) :
    fromMappingGo fdict allow_unknown ((k, v) :: rest) attrs =
      match fdict.lookup k with
      | Option.none =>
        if allow_unknown then fromMappingGo fdict allow_unknown rest attrs
        else Except.error ("Unknown Key: " ++ k)
      | some f =>
        if skip_field f (parse_object f.anno v) then
          fromMappingGo fdict allow_unknown rest attrs
        else
          fromMappingGo fdict allow_unknown rest
            (setEntry attrs f.name (parse_object f.anno v)) := rfl

/-- Reading back the serialized items collects each field's value under
its real name when every key resolves and nothing is skipped. -/
lemma fromMappingGo_ok (fdict : List (String × Field)) (w : Field → PyVal) :
    ∀ (gl : List Field) (attrs : List (String × PyVal)),
      (∀ g ∈ gl, fdict.lookup (rename_or_name g) = some g) →
      (∀ g ∈ gl, skip_field g (w g) = false) →
      fromMappingGo fdict false (gl.map (fun g => (rename_or_name g, w g)))
          attrs
        = Except.ok (gl.foldl
            (fun attrs g => setEntry attrs g.name (w g)) attrs) := by
  intro gl
  induction gl with
  | nil => intro attrs _ _; rfl
  | cons g rest ih =>
    intro attrs h hs
    have hg := h g (List.mem_cons_self g rest)
    have hsg : skip_field g (w g) = false := hs g (List.mem_cons_self g rest)
    have hfound : fromMappingGo fdict false ((rename_or_name g, w g) ::
        rest.map (fun x => (rename_or_name x, w x))) attrs =
        fromMappingGo fdict false (rest.map (fun x => (rename_or_name x, w x)))
          (setEntry attrs g.name (w g)) := by
      simp [fromMappingGo_cons, hg, parse_object, hsg]
    rw [List.map_cons, hfound, List.foldl_cons]
    exact ih _ (fun x hx => h x (List.mem_cons_of_mem g hx))
      (fun x hx => hs x (List.mem_cons_of_mem g hx))

/-- A conditional insertion fold is the plain fold over the kept
elements. -/
lemma foldl_skip_filter {α β : Type} (p : β → Bool)
    (step : List (String × α) → β → List (String × α)) :
    ∀ (l : List β) (acc : List (String × α)),
      l.foldl (fun out b => if p b then out else step out b) acc
        = (l.filter (fun b => !(p b))).foldl step acc := by
  intro l
  induction l with
  | nil => intro acc; rfl
  | cons b rest ih =>
    intro acc
    by_cases hp : p b = true
    · rw [List.foldl_cons, if_pos hp,
        List.filter_cons_of_neg (by simp [hp]), ih]
    · have hp' : p b = false := by simpa using hp
      rw [List.foldl_cons, if_neg (by simp [hp']),
        List.filter_cons_of_pos (by simp [hp']), List.foldl_cons, ih]

/-- The Python call accepts keyword arguments that all match
parameters. -/
lemma checkKwargs_ok (params : List String) :
    ∀ (attrs : List (String × PyVal)),
      (∀ p ∈ attrs, params.contains p.1 = true) →
      checkKwargs params attrs = Except.ok () := by
  intro attrs
  induction attrs with
  | nil => intro _; rfl
  | cons p rest ih =>
    intro h
    obtain ⟨k, v⟩ := p
    have hk := h (k, v) (List.mem_cons_self _ rest)
    rw [checkKwargs, if_pos hk]
    exact ih (fun q hq => h q (List.mem_cons_of_mem _ hq))

/-- An init field supplied as a keyword argument takes that value. -/
lemma initValue_supplied (attrs : List (String × PyVal)) (f : Field)
    (u : PyVal) (hinit : f.init = true)
    (h : attrs.lookup f.name = some u) :
    initValue attrs f = Except.ok u := by
  simp [initValue, hinit, h]

/-- When a field was dropped by `skip_default` (the only skip rule left
enabled), the synthesized `__init__` refills exactly the dropped value:
the skip comparison and the default fill agree because a field sets at
most one of default and default-factory. -/
lemma initValue_of_skipped (attrs : List (String × PyVal)) (f : Field)
    (u : PyVal) (hinit : f.init = true)
    (hnone : attrs.lookup f.name = Option.none)
    (h1 : f.metadata.skip = false) (h2 : f.metadata.skipIf = Option.none)
    (h3 : f.metadata.skipIfNot = false)
    (hx : f.default = PyVal.missing ∨ f.default_factory = PyVal.missing)
    (hs : skip_field f u = true) :
    initValue attrs f = Except.ok u := by
  rw [skip_field, if_neg (by simp [h1])] at hs
  by_cases hd : f.default = PyVal.missing
  · have hdb : (f.default != PyVal.missing) = false := by simp [hd]
    rw [if_neg (by simp [hdb])] at hs
    by_cases hdf : f.default_factory = PyVal.missing
    · rw [if_neg (by simp [hdf])] at hs
      rw [h2] at hs
      simp [h3] at hs
    · have hfb : (f.default_factory != PyVal.missing) = true := by simp [hdf]
      by_cases hsd : f.metadata.skipDefault = true
      · rw [if_pos (by simp [hsd, hfb])] at hs
        have hu : u = f.default_factory := by simpa using hs
        have hval : initValue attrs f = Except.ok f.default_factory := by
          simp [initValue, hinit, hnone, hfb]
        rw [hval, hu]
      · simp [hsd] at hs
        rw [h2] at hs
        simp [h3] at hs
  · have hfm : f.default_factory = PyVal.missing := by
      rcases hx with hx | hx
      · exact absurd hx hd
      · exact hx
    have hdb : (f.default != PyVal.missing) = true := by simp [hd]
    by_cases hsd : f.metadata.skipDefault = true
    · rw [if_pos (by simp [hsd, hdb])] at hs
      have hu : u = f.default := by simpa using hs
      have hval : initValue attrs f = Except.ok f.default := by
        simp [initValue, hinit, hnone, hfm, hdb]
      rw [hval, hu]
    · simp [hsd] at hs
      rw [h2] at hs
      simp [h3] at hs

/-- The generated `__init__` body stores every field's computed value
in order. -/
lemma initBody_ok (attrs : List (String × PyVal)) (w : Field → PyVal) :
    ∀ (gl : List Field),
      (∀ f ∈ gl, initValue attrs f = Except.ok (w f)) →
      initBody attrs gl = Except.ok (gl.map (fun f => (f.name, w f))) := by
  intro gl
  induction gl with
  | nil => intro _; rfl
  | cons f rest ih =>
    intro hv
    have hf := hv f (List.mem_cons_self f rest)
    have htail := ih (fun g hg => hv g (List.mem_cons_of_mem f hg))
    simp only [initBody, hf, htail, List.map_cons]

/-- The synthesis-time guard passes when no `INIT_VAR` field carries a
default factory (the data model's own invariant; a class violating it
is rejected at decoration time and never exists). -/
lemma create_init_guard_ok :
    ∀ (gl : List Field),
      (∀ f ∈ gl, f.field_type = FieldType.initVar →
        f.default_factory = PyVal.missing) →
      create_init_guard gl = Except.ok () := by
  intro gl
  induction gl with
  | nil => intro _; rfl
  | cons f rest ih =>
    intro h
    have hcond : (f.field_type == FieldType.initVar
        && f.default_factory != PyVal.missing) = false := by
      by_cases hiv : f.field_type = FieldType.initVar
      · simp [h f (List.mem_cons_self f rest) hiv]
      · simp [hiv]
    rw [create_init_guard, if_neg (by simp [hcond])]
    exact ih (fun g hg => h g (List.mem_cons_of_mem f hg))

/-- C9 amended: the structural round trip holds for every serde-valid
record instance all of whose fields are included in `init` (init-only
pseudo-fields round-trip too, since the generated `__init__` assigns
them onto the instance) and none of which carries a lossy skip rule
(`skip`, `skip_if`, `skip_if_false`; the value-recovering
`skip_default` is allowed): `from_mapping(type(x), to_dict(x))`
reconstructs an instance equal to `x`.  The well-formedness of the
resolved record is captured by unique field names, globally unique
rename/alias keys (what `validate_serde` enforces before any serde
conversion runs), the data model's default-XOR-factory invariant, and
the no-factory-on-INIT_VAR invariant `create_init` enforces at
decoration time. -/
theorem roundtrip_ok_on_lossless_init_fields
    (fs : List Field) (v : String → PyVal)
    (hnames : (fs.map Field.name).Nodup)
    (hkeys : (fs.flatMap serdeKeys).Nodup)
    (hinit : ∀ f ∈ fs, f.init = true)
    (hivar : ∀ f ∈ fs, f.field_type = FieldType.initVar →
      f.default_factory = PyVal.missing)
    (hskip : ∀ f ∈ fs, f.metadata.skip = false)
    (hskipIf : ∀ f ∈ fs, f.metadata.skipIf = Option.none)
    (hskipNot : ∀ f ∈ fs, f.metadata.skipIfNot = false)
    (hxor : ∀ f ∈ fs,
      f.default = PyVal.missing ∨ f.default_factory = PyVal.missing) :
    ∃ m, to_dict fs (instOf fs v) = Except.ok m
      ∧ from_mapping fs true false m = Except.ok (instOf fs v)
      ∧ record_eq fs (instOf fs v) (instOf fs v) = true := by
  have hlookup_inst : ∀ f ∈ fs,
      (instOf fs v).lookup f.name = some (v f.name) := by
    intro f hf
    exact lookup_map_pair_of_mem Field.name v fs f hf
  have hA : asdict_items (instOf fs v) fs
      = Except.ok (fs.map (fun f => (f.name, v f.name))) :=
    asdict_items_ok (instOf fs v) (fun f => v f.name) fs hlookup_inst
  have hnd_lookup : ∀ g ∈ fs, (name_dict fs).lookup g.name = some g :=
    fun g hg => lookup_name_dict fs hnames g hg
  have hB := dictFactoryGo_ok fs (fun f => v f.name) fs [] hnd_lookup
  rw [foldl_skip_filter (fun g => skip_field g (v g.name))
    (fun out g => setEntry out (rename_or_name g) (v g.name)) fs []] at hB
  have hkeptsub : List.Sublist
      ((fs.filter (fun g => !(skip_field g (v g.name)))).map rename_or_name)
      (fs.map rename_or_name) :=
    (List.filter_sublist fs).map rename_or_name
  have hknodup : ((fs.filter (fun g => !(skip_field g (v g.name)))).map
      rename_or_name).Nodup :=
    List.Nodup.sublist (hkeptsub.trans (map_rename_sublist_bind fs)) hkeys
  have happend := foldl_setEntry_append rename_or_name (fun f => v f.name)
    (fs.filter (fun g => !(skip_field g (v g.name)))) []
    (fun b _ => rfl) hknodup
  rw [happend, List.nil_append] at hB
  have hToDict : to_dict fs (instOf fs v)
      = Except.ok ((fs.filter (fun g => !(skip_field g (v g.name)))).map
          (fun g => (rename_or_name g, v g.name))) := by
    rw [to_dict, hA]
    exact hB
  have hfd : ∀ g ∈ fs.filter (fun g => !(skip_field g (v g.name))),
      (field_dict fs).lookup (rename_or_name g) = some g := by
    intro g hg
    exact lookup_field_dict fs hkeys g (List.mem_filter.mp hg).1
  have hns : ∀ g ∈ fs.filter (fun g => !(skip_field g (v g.name))),
      skip_field g (v g.name) = false := by
    intro g hg
    simpa using (List.mem_filter.mp hg).2
  have hC := fromMappingGo_ok (field_dict fs) (fun f => v f.name)
    (fs.filter (fun g => !(skip_field g (v g.name)))) [] hfd hns
  have hkeptnames : ((fs.filter (fun g => !(skip_field g (v g.name)))).map
      Field.name).Nodup :=
    List.Nodup.sublist ((List.filter_sublist fs).map Field.name) hnames
  have happ2 := foldl_setEntry_append Field.name (fun f => v f.name)
    (fs.filter (fun g => !(skip_field g (v g.name)))) []
    (fun b _ => rfl) hkeptnames
  rw [happ2, List.nil_append] at hC
  have hparams : ∀ p ∈ (fs.filter (fun g => !(skip_field g (v g.name)))).map
      (fun g => (g.name, v g.name)), (init_param_names fs).contains p.1
        = true := by
    intro p hp
    obtain ⟨g, hg, rfl⟩ := List.mem_map.mp hp
    have hgfs : g ∈ fs := (List.mem_filter.mp hg).1
    have hmem : g.name ∈ init_param_names fs :=
      List.mem_filterMap.mpr ⟨g, hgfs, by rw [if_pos (hinit g hgfs)]⟩
    simpa using hmem
  have hkw := checkKwargs_ok (init_param_names fs) _ hparams
  have hval : ∀ f ∈ fs,
      initValue ((fs.filter (fun g => !(skip_field g (v g.name)))).map
        (fun g => (g.name, v g.name))) f = Except.ok (v f.name) := by
    intro f hf
    by_cases hs : skip_field f (v f.name) = true
    · have hnone : ((fs.filter (fun g => !(skip_field g (v g.name)))).map
          (fun g => (g.name, v g.name))).lookup f.name = Option.none := by
        apply lookup_map_pair_none Field.name (fun g => v g.name) _ f.name
        intro hmem
        obtain ⟨g, hgk, hgname⟩ := List.mem_map.mp hmem
        obtain ⟨hgfs, hgskip⟩ := List.mem_filter.mp hgk
        have hgf : g = f := List.inj_on_of_nodup_map hnames hgfs hf hgname
        rw [hgf, hs] at hgskip
        cases hgskip
      exact initValue_of_skipped _ f (v f.name) (hinit f hf) hnone
        (hskip f hf) (hskipIf f hf) (hskipNot f hf) (hxor f hf) hs
    · have hs' : skip_field f (v f.name) = false := by simpa using hs
      have hfk : f ∈ fs.filter (fun g => !(skip_field g (v g.name))) :=
        List.mem_filter.mpr ⟨hf, by simp [hs']⟩
      have hl := lookup_map_pair_of_mem Field.name v
        (fs.filter (fun g => !(skip_field g (v g.name)))) f hfk
      exact initValue_supplied _ f (v f.name) (hinit f hf) hl
  have hbody := initBody_ok _ (fun f => v f.name) fs hval
  have hguard := create_init_guard_ok fs hivar
  have hFrom : from_mapping fs true false
      ((fs.filter (fun g => !(skip_field g (v g.name)))).map
        (fun g => (rename_or_name g, v g.name)))
      = Except.ok (instOf fs v) := by
    have h1 : from_mapping fs true false
        ((fs.filter (fun g => !(skip_field g (v g.name)))).map
          (fun g => (rename_or_name g, v g.name)))
        = call_init fs ((fs.filter (fun g => !(skip_field g (v g.name)))).map
            (fun g => (g.name, v g.name))) := by
      simp [from_mapping, hC]
    have h2 : call_init fs ((fs.filter
        (fun g => !(skip_field g (v g.name)))).map
          (fun g => (g.name, v g.name)))
        = initBody ((fs.filter (fun g => !(skip_field g (v g.name)))).map
            (fun g => (g.name, v g.name))) fs := by
      simp [call_init, hguard, hkw]
    rw [h1, h2, hbody]
    rfl
  exact ⟨_, hToDict, hFrom, by simp [record_eq]⟩

/-- C9 counterexample: a record with a field excluded from `init`
(`b`, `init=False`, default 0) and no skip rule anywhere.  `to_dict`
serializes both fields, but `from_mapping` passes every key back to the
synthesized constructor, which rejects `b` as an unexpected keyword
argument — the round trip raises `TypeError` instead of reconstructing
an equal instance. -/
theorem roundtrip_fails_on_noninit_field :
    (([{ name := "a" },
        { name := "b", default := PyVal.int 0, init := false }] :
          List Field).all
      (fun f => !(f.metadata.skip || f.metadata.skipIf.isSome
        || f.metadata.skipIfNot || f.metadata.skipDefault)) = true)
    ∧ to_dict [{ name := "a" },
          { name := "b", default := PyVal.int 0, init := false }]
        [("a", PyVal.int 1), ("b", PyVal.int 0)]
      = Except.ok [("a", PyVal.int 1), ("b", PyVal.int 0)]
    ∧ from_mapping [{ name := "a" },
          { name := "b", default := PyVal.int 0, init := false }]
        true false [("a", PyVal.int 1), ("b", PyVal.int 0)]
      = Except.error "unexpected keyword argument b" :=
  ⟨rfl, rfl, rfl⟩

/-- The concrete record used to witness the amended round-trip theorem:
field `a` plus a renamed field `b` carrying the value-recovering
`skip_default` rule. -/
def witnessFields : List Field :=
  [{ name := "a" },
   { name := "b", default := PyVal.int 2,
     metadata := { rename := some "bee", skipDefault := true } }]

/-- The witnessed instance values: `a = 1`, `b` at its default 2. -/
def witnessValues : String → PyVal :=
  fun nm => if nm = "a" then PyVal.int 1 else PyVal.int 2

/-- Witness for the amended C9 theorem at a concrete renamed,
`skip_default`-carrying record. -/
theorem roundtrip_ok_on_lossless_init_fields_witness :
    ∃ m, to_dict witnessFields (instOf witnessFields witnessValues)
        = Except.ok m
      ∧ from_mapping witnessFields true false m
        = Except.ok (instOf witnessFields witnessValues)
      ∧ record_eq witnessFields (instOf witnessFields witnessValues)
          (instOf witnessFields witnessValues) = true :=
  roundtrip_ok_on_lossless_init_fields witnessFields witnessValues
    (by decide) (by decide)
    (by
      intro f hf
      rcases List.mem_cons.mp hf with rfl | hf
      · rfl
      · rcases List.mem_cons.mp hf with rfl | hf
        · rfl
        · cases hf)
    (by
      intro f hf h
      rcases List.mem_cons.mp hf with rfl | hf
      · exact absurd h (by decide)
      · rcases List.mem_cons.mp hf with rfl | hf
        · exact absurd h (by decide)
        · cases hf)
    (by
      intro f hf
      rcases List.mem_cons.mp hf with rfl | hf
      · rfl
      · rcases List.mem_cons.mp hf with rfl | hf
        · rfl
        · cases hf)
    (by
      intro f hf
      rcases List.mem_cons.mp hf with rfl | hf
      · rfl
      · rcases List.mem_cons.mp hf with rfl | hf
        · rfl
        · cases hf)
    (by
      intro f hf
      rcases List.mem_cons.mp hf with rfl | hf
      · rfl
      · rcases List.mem_cons.mp hf with rfl | hf
        · rfl
        · cases hf)
    (by
      intro f hf
      rcases List.mem_cons.mp hf with rfl | hf
      · exact Or.inl rfl
      · rcases List.mem_cons.mp hf with rfl | hf
        · exact Or.inr rfl
        · cases hf)

end Pyderive
